import Mathlib

/-!
Verification of the CPU-scheduler simulator `sched.c` (NPP and Round Robin).

The development shallowly embeds the C program: `struct ProcessNode` becomes
`Process` (machine ints become `Int`; the `next`/`prev` links are replaced by
list order), `struct List` becomes `CList` (a list of records plus the `count`
field, kept separately because the C code decrements `count` even when
dequeueing an empty list), and every loop of the C source becomes a
structurally recursive Lean function whose fuel mirrors the loop bound used by
the C code (`count` for the counted loops, explicit fuel for the `while
(currentProcess != NULL)` loops, which need not terminate for all inputs).
-/

/-- `struct ProcessNode` of sched.c, minus the intrusive `next`/`prev` links
(list position replaces them).  All fields are C `int`, embedded as `Int`. -/
structure Process where
  pid : Int
  arrival : Int
  burst : Int
  finish : Int
  waiting : Int
  leftover : Int
  priority : Int
deriving DecidableEq, Repr

/-- `struct List` of sched.c: the node chain as a Lean list plus the `count`
field.  `count` is stored separately from the chain because `dequeue`
decrements it even on an empty list, so it can disagree with the length. -/
structure CList where
  elems : List Process
  count : Int
deriving DecidableEq, Repr

/-- `init_list()`: empty chain, `count = 0`. -/
def emptyQueue : CList := ⟨[], 0⟩

/-- `enqueue(list, node)`: append at the tail, `count++`. -/
def enqueue (l : CList) (n : Process) : CList := ⟨l.elems ++ [n], l.count + 1⟩

/-- `dequeue(queue)`: the branch `head == tail` covers both the empty queue
(head and tail are both NULL, so NULL is returned) and the singleton queue;
in every case `count--` happens and the head (possibly NULL) is returned. -/
def dequeue (q : CList) : Option Process × CList :=
  match q.elems with
  | [] => (none, ⟨[], q.count - 1⟩)
  | x :: xs => (some x, ⟨xs, q.count - 1⟩)

/-- `init_process` followed by `currentProcess->leftover = currentProcess->burst`
as done at import time in `main` (lines 112-122): `finish`/`waiting` start 0,
`leftover` starts at `burst`. -/
def mkProcess (pid arrival burst priority : Int) : Process :=
  ⟨pid, arrival, burst, 0, 0, burst, priority⟩

/-- The import loop of `main`: each parsed 4-tuple `(pid, arrival, burst,
priority)` becomes a node enqueued on the initial ReadyQueue. -/
def importList (l : List (Int × Int × Int × Int)) : CList :=
  l.foldl (fun q t => enqueue q (mkProcess t.1 t.2.1 t.2.2.1 t.2.2.2)) emptyQueue

/-- The bubbling phase of `insSortPriority`: `swapWithNext` moves the new
record leftward through the sorted prefix while the predecessor's priority is
strictly greater (`i->priority > i->next->priority`), which places it before
the first strictly greater record and after all records of equal priority. -/
def insertProc (x : Process) : List Process → List Process
  | [] => [x]
  | y :: ys => if x.priority < y.priority then x :: y :: ys else y :: insertProc x ys

/-- The outer do-while of `insSortPriority`: scan left to right keeping the
already-scanned prefix sorted; each newly scanned record is either already in
place (`ptr->priority >= i->priority`) or bubbled into position.  The
`count == 1` early return is modelled at the queue level in `sortQueue`. -/
def insSortList : List Process → List Process → List Process
  | pre, [] => pre
  | pre, x :: xs => insSortList (insertProc x pre) xs

/-- `insSortPriority(list)` on the record sequence of the queue; the node
payload swaps leave `count` untouched. -/
def insSortPriority (l : List Process) : List Process := insSortList [] l

/-- `insSortPriority(list)` at the queue level: `if (list->count == 1)
{ return; }` (line 307) exits early on the `count` FIELD, not the chain
length; otherwise the do-while sorts the chain in place by payload swaps,
leaving `count` untouched.  When `count != 1` the C do-while dereferences
`ptr->next` of the head, so a chain with fewer than two records there is a
NULL dereference in C (unreachable at the call sites, which guard
`head != NULL` and keep `count` equal to the number of records). -/
def sortQueue (q : CList) : CList :=
  if q.count = 1 then q else ⟨insSortPriority q.elems, q.count⟩

/-- The body of `arrivalChecker`'s counted loop, fuel = the initial
`JobQueue->count`: dequeue a pending record, enqueue it on the ReadyQueue when
`arrival == CLOCK` and back on the JobQueue otherwise.  The `none` branch
(dequeue of an empty pool, a NULL dereference in C) is unreachable whenever
`count` equals the number of records. -/
def acGo (clock : Int) : Nat → CList → CList → CList × CList
  | 0, r, p => (r, p)
  | n + 1, r, p =>
    let d := dequeue p
    match d.1 with
    | none => acGo clock n r d.2
    | some x =>
      if x.arrival = clock then acGo clock n (enqueue r x) d.2
      else acGo clock n r (enqueue d.2 x)

/-- `arrivalChecker(ReadyQueue, JobQueue, CLOCK)` (sched.c lines 332-342):
`for (int i = JobQueue->count; i > 0; i--)` examines each pending record once. -/
def arrivalChecker (r p : CList) (clock : Int) : CList × CList :=
  acGo clock p.count.toNat r p

/-- The per-burst-tick loop of `npp` (lines 354-358), fuel = the running
process's `burst` (`for (int i = 0; i < currentProcess->burst; i++)`):
`CLOCK++`, admission, then the priority sort guarded by `head != NULL`.
Returns the new clock, ReadyQueue and JobQueue. -/
def runBurst : Nat → Int → CList → CList → Int × CList × CList
  | 0, clock, r, p => (clock, r, p)
  | n + 1, clock, r, p =>
    let clock2 := clock + 1
    let s := arrivalChecker r p clock2
    let r2 := if s.1.elems.isEmpty then s.1 else sortQueue s.1
    runBurst n clock2 r2 s.2

/-- One iteration of `npp`'s `while (currentProcess != NULL)` body (lines
353-364): run the whole burst, set `waiting` and `finish`, append to the
output ProcessQueue, admit + sort once more at the completion tick, and pop
the next running process.  Result: (clock, next running, ReadyQueue, JobQueue,
ProcessQueue). -/
def nppStep (clock : Int) (c : Process) (ready pool out : CList) :
    Int × Option Process × CList × CList × CList :=
  let s := runBurst c.burst.toNat clock ready pool
  let clock2 := s.1
  let c2 := { c with waiting := clock2 - c.arrival - c.burst, finish := clock2 }
  let out2 := enqueue out c2
  let s2 := arrivalChecker s.2.1 s.2.2 clock2
  let ready2 := if s2.1.elems.isEmpty then s2.1 else sortQueue s2.1
  let d := dequeue ready2
  (clock2, d.1, d.2, s2.2, out2)

/-- `npp`'s main loop, fuel-indexed (the C loop runs until `dequeue` of the
empty ReadyQueue returns NULL; `none` means the fuel ran out first).  On
termination it returns the ProcessQueue together with the final ReadyQueue
(whose `count` the last empty dequeue left at -1). -/
def nppLoop : Nat → Int → Option Process → CList → CList → CList → Option (CList × CList)
  | 0, _, _, _, _, _ => none
  | _ + 1, _, none, ready, _, out => some (out, ready)
  | fuel + 1, clock, some c, ready, pool, out =>
    let s := nppStep clock c ready pool out
    nppLoop fuel s.1 s.2.1 s.2.2.1 s.2.2.2.1 s.2.2.2.2

/-- The initial drain of `npp`/`rr` (`while (ReadyQueue->count > 0)
enqueue(JobQueue, dequeue(ReadyQueue))`), fuel = the initial count: every
remaining imported process moves to the JobQueue. -/
def drainGo : Nat → CList → CList → CList × CList
  | 0, r, p => (r, p)
  | n + 1, r, p =>
    let d := dequeue r
    match d.1 with
    | some x => drainGo n d.2 (enqueue p x)
    | none => drainGo n d.2 p

/-- `npp(ReadyQueue, ProcessQueue)` (lines 344-369): pop the head of the
input order as the first running process (no priority ordering applied to
this first pick), move the rest to the JobQueue, then run the main loop from
`CLOCK = 0` with an empty output queue. -/
def npp (readyInit : CList) (fuel : Nat) : Option (CList × CList) :=
  let d := dequeue readyInit
  let s := drainGo d.2.count.toNat d.2 emptyQueue
  nppLoop fuel 0 d.1 s.1 s.2 emptyQueue

/-- Whole-program NPP run on a parsed input sequence. -/
def nppSim (input : List (Int × Int × Int × Int)) (fuel : Nat) : Option (CList × CList) :=
  npp (importList input) fuel

/-- The quantum-slice loop of `rr` (lines 381-390), fuel = `iQuantum`
(`for (int i = 0; i < iQuantum; i++)`): `CLOCK++`, `leftover--`, admission
except on the final slice tick (`if (i < iQuantum - 1)` — with `n + 1`
iterations remaining this is `0 < n`), and an early break when `leftover`
reaches 0. -/
def rrSlice : Nat → Int → Process → CList → CList → Int × Process × CList × CList
  | 0, clock, c, r, p => (clock, c, r, p)
  | n + 1, clock, c, r, p =>
    let clock2 := clock + 1
    let c2 := { c with leftover := c.leftover - 1 }
    let s := if 0 < n then arrivalChecker r p clock2 else (r, p)
    if c2.leftover = 0 then (clock2, c2, s.1, s.2) else rrSlice n clock2 c2 s.1 s.2

/-- One iteration of `rr`'s `while (currentProcess != NULL)` body (lines
380-404).  Completed (`leftover == 0`): set `waiting`/`finish`, append to the
output, admit, pop.  Incomplete: push the running process to the ReadyQueue
tail first, then admit, then pop. -/
def rrStep (q clock : Int) (c : Process) (ready pool out : CList) :
    Int × Option Process × CList × CList × CList :=
  let s := rrSlice q.toNat clock c ready pool
  let clock2 := s.1
  let c2 := s.2.1
  if c2.leftover = 0 then
    let c3 := { c2 with waiting := clock2 - c2.arrival - c2.burst, finish := clock2 }
    let out2 := enqueue out c3
    let s2 := arrivalChecker s.2.2.1 s.2.2.2 clock2
    let d := dequeue s2.1
    (clock2, d.1, d.2, s2.2, out2)
  else
    let s2 := arrivalChecker (enqueue s.2.2.1 c2) s.2.2.2 clock2
    let d := dequeue s2.1
    (clock2, d.1, d.2, s2.2, out)

/-- `rr`'s main loop, fuel-indexed exactly like `nppLoop`. -/
def rrLoop : Nat → Int → Int → Option Process → CList → CList → CList → Option (CList × CList)
  | 0, _, _, _, _, _, _ => none
  | _ + 1, _, _, none, ready, _, out => some (out, ready)
  | fuel + 1, q, clock, some c, ready, pool, out =>
    let s := rrStep q clock c ready pool out
    rrLoop fuel q s.1 s.2.1 s.2.2.1 s.2.2.2.1 s.2.2.2.2

/-- `rr(ReadyQueue, ProcessQueue, iQuantum)` (lines 371-406): identical
set-up to `npp`, then the quantum-sliced main loop. -/
def rr (readyInit : CList) (q : Int) (fuel : Nat) : Option (CList × CList) :=
  let d := dequeue readyInit
  let s := drainGo d.2.count.toNat d.2 emptyQueue
  rrLoop fuel q 0 d.1 s.1 s.2 emptyQueue

/-- Whole-program RR run on a parsed input sequence. -/
def rrSim (input : List (Int × Int × Int × Int)) (q : Int) (fuel : Nat) :
    Option (CList × CList) :=
  rr (importList input) q fuel

/-- The RR branch of `main`'s argument handling (lines 84-92): the invocation
is rejected (`return 1`, no simulation) only when no quantum argument is
present (`argc == 4`); when an argument is present its `atoi` value is used
unchecked, with no positivity test.  `none` models absence of the argument. -/
def rrQuantumConfig (quantumArg : Option Int) : Option Int :=
  match quantumArg with
  | none => none
  | some q => some q

/-! ## Lemmas about the priority insertion sort -/

theorem insertProc_perm (x : Process) (l : List Process) :
    List.Perm (insertProc x l) (x :: l) := by
  induction l with
  | nil => simp [insertProc]
  | cons y ys ih =>
    simp only [insertProc]
    split
    · exact List.Perm.refl _
    · exact (List.Perm.cons y ih).trans (List.Perm.swap x y ys)

theorem mem_insertProc {z x : Process} {l : List Process} :
    z ∈ insertProc x l ↔ z = x ∨ z ∈ l := by
  simpa using (insertProc_perm x l).mem_iff

theorem insSortList_perm : ∀ (rem pre : List Process),
    List.Perm (insSortList pre rem) (pre ++ rem) := by
  intro rem
  induction rem with
  | nil => intro pre; simp [insSortList]
  | cons x xs ih =>
    intro pre
    simp only [insSortList]
    refine (ih (insertProc x pre)).trans ?_
    refine ((insertProc_perm x pre).append_right xs).trans ?_
    simpa using (@List.perm_middle _ x pre xs).symm

theorem insertProc_sorted {l : List Process} (x : Process)
    (h : l.Pairwise (fun a b => a.priority ≤ b.priority)) :
    (insertProc x l).Pairwise (fun a b => a.priority ≤ b.priority) := by
  induction l with
  | nil => simp [insertProc]
  | cons y ys ih =>
    obtain ⟨hy, hys⟩ := List.pairwise_cons.mp h
    simp only [insertProc]
    split
    case isTrue hlt =>
      refine List.pairwise_cons.mpr ⟨?_, h⟩
      intro z hz
      rcases List.mem_cons.mp hz with rfl | hz'
      · exact le_of_lt hlt
      · exact le_trans (le_of_lt hlt) (hy z hz')
    case isFalse hge =>
      refine List.pairwise_cons.mpr ⟨?_, ih hys⟩
      intro z hz
      rcases mem_insertProc.mp hz with rfl | hz'
      · exact le_of_not_lt hge
      · exact hy z hz'

theorem insSortList_sorted : ∀ (rem pre : List Process),
    pre.Pairwise (fun a b => a.priority ≤ b.priority) →
    (insSortList pre rem).Pairwise (fun a b => a.priority ≤ b.priority) := by
  intro rem
  induction rem with
  | nil => intro pre h; simpa [insSortList] using h
  | cons x xs ih =>
    intro pre h
    exact ih (insertProc x pre) (insertProc_sorted x h)

theorem filter_eq_nil_of_sorted_lt {v : Int} {y : Process} {ys : List Process}
    (h : (y :: ys).Pairwise (fun a b => a.priority ≤ b.priority))
    (hv : v < y.priority) :
    (y :: ys).filter (fun r => r.priority == v) = [] := by
  rw [List.filter_eq_nil_iff]
  intro a ha
  have hya : y.priority ≤ a.priority := by
    rcases List.mem_cons.mp ha with rfl | ha'
    · exact le_refl _
    · exact (List.pairwise_cons.mp h).1 a ha'
  simp only [beq_iff_eq]
  omega

theorem insertProc_filter (v : Int) (x : Process) : ∀ (l : List Process),
    l.Pairwise (fun a b => a.priority ≤ b.priority) →
    (insertProc x l).filter (fun r => r.priority == v) =
      if x.priority = v then l.filter (fun r => r.priority == v) ++ [x]
      else l.filter (fun r => r.priority == v) := by
  intro l
  induction l with
  | nil =>
    intro _
    by_cases hxv : x.priority = v <;> simp [insertProc, List.filter_cons, beq_iff_eq, hxv]
  | cons y ys ih =>
    intro h
    have hys := (List.pairwise_cons.mp h).2
    simp only [insertProc]
    by_cases hlt : x.priority < y.priority
    · rw [if_pos hlt]
      by_cases hxv : x.priority = v
      · have hnil : (y :: ys).filter (fun r => r.priority == v) = [] :=
          filter_eq_nil_of_sorted_lt h (hxv ▸ hlt)
        simp [List.filter_cons, hxv, hnil]
      · simp [List.filter_cons, hxv]
    · rw [if_neg hlt]
      by_cases hyv : y.priority = v <;> by_cases hxv : x.priority = v <;>
        simp [List.filter_cons, hyv, hxv, ih hys]

theorem insSortList_filter (v : Int) : ∀ (rem pre : List Process),
    pre.Pairwise (fun a b => a.priority ≤ b.priority) →
    (insSortList pre rem).filter (fun r => r.priority == v) =
      pre.filter (fun r => r.priority == v) ++ rem.filter (fun r => r.priority == v) := by
  intro rem
  induction rem with
  | nil => intro pre _; simp [insSortList]
  | cons x xs ih =>
    intro pre h
    simp only [insSortList]
    rw [ih (insertProc x pre) (insertProc_sorted x h), insertProc_filter v x pre h]
    by_cases hxv : x.priority = v <;> simp [List.filter_cons, hxv]

/-! ## Lemmas about arrival admission -/

theorem acGo_spec (clock : Int) : ∀ (todo kept : List Process) (r : CList) (c : Int),
    acGo clock todo.length r ⟨todo ++ kept, c⟩ =
      (⟨r.elems ++ todo.filter (fun x => x.arrival == clock),
        r.count + (todo.filter (fun x => x.arrival == clock)).length⟩,
       ⟨kept ++ todo.filter (fun x => !(x.arrival == clock)),
        c - todo.length + (todo.filter (fun x => !(x.arrival == clock))).length⟩) := by
  intro todo
  induction todo with
  | nil => intro kept r c; simp [acGo]
  | cons x xs ih =>
    intro kept r c
    by_cases hx : x.arrival = clock
    · have step : acGo clock (x :: xs).length r ⟨(x :: xs) ++ kept, c⟩ =
          acGo clock xs.length (enqueue r x) ⟨xs ++ kept, c - 1⟩ := by
        simp [acGo, dequeue, hx]
      rw [step, ih kept (enqueue r x) (c - 1)]
      have hfm : (x :: xs).filter (fun y => y.arrival == clock)
          = x :: xs.filter (fun y => y.arrival == clock) := by
        simp [List.filter_cons, hx]
      have hfn : (x :: xs).filter (fun y => !(y.arrival == clock))
          = xs.filter (fun y => !(y.arrival == clock)) := by
        simp [List.filter_cons, hx]
      rw [hfm, hfn]
      simp only [enqueue, List.length_cons, CList.mk.injEq, Prod.mk.injEq]
      refine ⟨⟨by simp, by push_cast; ring⟩, trivial, by push_cast; ring⟩
    · have step : acGo clock (x :: xs).length r ⟨(x :: xs) ++ kept, c⟩ =
          acGo clock xs.length r ⟨(xs ++ kept) ++ [x], c⟩ := by
        simp [acGo, dequeue, enqueue, hx]
      rw [step]
      have h2 : (xs ++ kept) ++ [x] = xs ++ (kept ++ [x]) := by simp
      rw [h2, ih (kept ++ [x]) r c]
      have hfm : (x :: xs).filter (fun y => y.arrival == clock)
          = xs.filter (fun y => y.arrival == clock) := by
        simp [List.filter_cons, hx]
      have hfn : (x :: xs).filter (fun y => !(y.arrival == clock))
          = x :: xs.filter (fun y => !(y.arrival == clock)) := by
        simp [List.filter_cons, hx]
      rw [hfm, hfn]
      simp only [List.length_cons, CList.mk.injEq, Prod.mk.injEq]
      refine ⟨trivial, by simp, by push_cast; ring⟩

theorem filter_length_split (f : Process → Bool) : ∀ l : List Process,
    (l.filter f).length + (l.filter (fun x => !(f x))).length = l.length := by
  intro l
  induction l with
  | nil => simp
  | cons x xs ih =>
    by_cases hx : f x <;> simp [List.filter_cons, hx, ← ih] <;> ring

theorem dequeue_eq (q : CList) :
    dequeue q = (q.elems.head?, ⟨q.elems.tail, q.count - 1⟩) := by
  rcases q with ⟨elems, count⟩
  cases elems <;> rfl

/-! ## Lemmas about the scheduler loops -/

theorem runBurst_clock : ∀ (n : Nat) (clock : Int) (r p : CList),
    (runBurst n clock r p).1 = clock + n := by
  intro n
  induction n with
  | zero => intro clock r p; simp [runBurst]
  | succ n ih =>
    intro clock r p
    simp only [runBurst]
    rw [ih]
    push_cast
    ring

theorem nppStep_out (clock : Int) (c : Process) (ready pool out : CList) :
    (nppStep clock c ready pool out).2.2.2.2 =
      enqueue out { c with
        waiting := (runBurst c.burst.toNat clock ready pool).1 - c.arrival - c.burst,
        finish := (runBurst c.burst.toNat clock ready pool).1 } := rfl

theorem nppLoop_out_extends : ∀ (fuel : Nat) (clock : Int) (cur : Option Process)
    (ready pool out : CList) (res : CList × CList),
    nppLoop fuel clock cur ready pool out = some res →
    ∃ t, res.1.elems = out.elems ++ t := by
  intro fuel
  induction fuel with
  | zero => intro _ _ _ _ _ _ h; exact absurd h (by simp [nppLoop])
  | succ fuel ih =>
    intro clock cur ready pool out res h
    cases cur with
    | none =>
      refine ⟨[], ?_⟩
      have : (out, ready) = res := by simpa [nppLoop] using h
      rw [← this]
      simp
    | some c =>
      rw [nppLoop] at h
      obtain ⟨t, ht⟩ := ih _ _ _ _ _ _ h
      rw [nppStep_out] at ht
      exact ⟨_ :: t, by simpa [enqueue] using ht⟩

theorem nppLoop_ident : ∀ (fuel : Nat) (clock : Int) (cur : Option Process)
    (ready pool out : CList) (res : CList × CList),
    nppLoop fuel clock cur ready pool out = some res →
    (∀ pr ∈ out.elems, pr.finish = pr.arrival + pr.burst + pr.waiting) →
    ∀ pr ∈ res.1.elems, pr.finish = pr.arrival + pr.burst + pr.waiting := by
  intro fuel
  induction fuel with
  | zero => intro _ _ _ _ _ _ h; exact absurd h (by simp [nppLoop])
  | succ fuel ih =>
    intro clock cur ready pool out res h hout
    cases cur with
    | none =>
      have : (out, ready) = res := by simpa [nppLoop] using h
      rw [← this]
      exact hout
    | some c =>
      rw [nppLoop] at h
      refine ih _ _ _ _ _ _ h ?_
      rw [nppStep_out]
      intro pr hpr
      have hpr2 : pr ∈ out.elems ∨ pr = { c with
          waiting := (runBurst c.burst.toNat clock ready pool).1 - c.arrival - c.burst,
          finish := (runBurst c.burst.toNat clock ready pool).1 } := by
        simpa [enqueue] using hpr
      rcases hpr2 with hold | rfl
      · exact hout pr hold
      · dsimp only
        ring

theorem rrStep_out_mem (q clock : Int) (c : Process) (ready pool out : CList)
    (pr : Process) (hm : pr ∈ (rrStep q clock c ready pool out).2.2.2.2.elems) :
    pr ∈ out.elems ∨ pr.finish = pr.arrival + pr.burst + pr.waiting := by
  by_cases hz : (rrSlice q.toNat clock c ready pool).2.1.leftover = 0
  · simp only [rrStep] at hm
    rw [if_pos hz] at hm
    have hm2 : pr ∈ out.elems ∨ pr = { (rrSlice q.toNat clock c ready pool).2.1 with
        waiting := (rrSlice q.toNat clock c ready pool).1
          - (rrSlice q.toNat clock c ready pool).2.1.arrival
          - (rrSlice q.toNat clock c ready pool).2.1.burst,
        finish := (rrSlice q.toNat clock c ready pool).1 } := by
      simpa [enqueue] using hm
    rcases hm2 with hold | rfl
    · exact Or.inl hold
    · refine Or.inr ?_
      dsimp only
      ring
  · simp only [rrStep] at hm
    rw [if_neg hz] at hm
    exact Or.inl hm

theorem rrLoop_ident : ∀ (fuel : Nat) (q clock : Int) (cur : Option Process)
    (ready pool out : CList) (res : CList × CList),
    rrLoop fuel q clock cur ready pool out = some res →
    (∀ pr ∈ out.elems, pr.finish = pr.arrival + pr.burst + pr.waiting) →
    ∀ pr ∈ res.1.elems, pr.finish = pr.arrival + pr.burst + pr.waiting := by
  intro fuel
  induction fuel with
  | zero => intro _ _ _ _ _ _ _ h; exact absurd h (by simp [rrLoop])
  | succ fuel ih =>
    intro q clock cur ready pool out res h hout
    cases cur with
    | none =>
      have : (out, ready) = res := by simpa [rrLoop] using h
      rw [← this]
      exact hout
    | some c =>
      rw [rrLoop] at h
      refine ih _ _ _ _ _ _ _ h ?_
      intro pr hpr
      rcases rrStep_out_mem q clock c ready pool out pr hpr with hold | hident
      · exact hout pr hold
      · exact hident

/-- Net effect of one `arrivalChecker` call under the callers' invariant that
the pool's `count` equals its number of records: arrivals matching the clock
move to the ReadyQueue tail in pool order, the others stay in pool order, and
the counts move with them. -/
theorem arrivalChecker_spec (r p : CList) (clock : Int)
    (h : p.count = (p.elems.length : Int)) :
    (arrivalChecker r p clock).1.elems
        = r.elems ++ p.elems.filter (fun x => x.arrival == clock) ∧
    (arrivalChecker r p clock).2.elems
        = p.elems.filter (fun x => !(x.arrival == clock)) ∧
    (arrivalChecker r p clock).1.count
        = r.count + ((p.elems.filter (fun x => x.arrival == clock)).length : Int) ∧
    (arrivalChecker r p clock).2.count
        = p.count - ((p.elems.filter (fun x => x.arrival == clock)).length : Int) := by
  have ht : p.count.toNat = p.elems.length := by omega
  have hp : acGo clock p.elems.length r p =
      acGo clock p.elems.length r ⟨p.elems ++ [], p.count⟩ := by
    rw [List.append_nil]
  simp only [arrivalChecker, ht, hp, acGo_spec clock p.elems [] r p.count]
  have hsplit := filter_length_split (fun x => x.arrival == clock) p.elems
  refine ⟨trivial, by simp, trivial, by omega⟩

/-- With a zero quantum the slice loop of `rr` runs no iterations, so the
running process's `leftover` never decreases and the loop state repeats
exactly; the main loop therefore never terminates, whatever the fuel. -/
theorem rrLoop_quantum_zero : ∀ n : Nat,
    rrLoop n 0 0 (some (mkProcess 1 0 1 0)) ⟨[], 0⟩ ⟨[], 0⟩ ⟨[], 0⟩ = none := by
  intro n
  induction n with
  | zero => rfl
  | succ n ih => exact ih

/-! ## Claims -/

/-- Claim C1: for the NPP input `(1,0,5,2) (2,0,3,1) (3,0,8,3)` the claimed
output is processes 1, 2, 3 with finishes 5, 8, 16.  The code instead outputs
only process 1 (finish 5, waiting 0): `arrivalChecker` is only ever called
with `CLOCK >= 1`, so the pending processes with arrival 0 are never admitted
and the loop ends once process 1 completes. -/
theorem npp_scenarioA_only_first_process :
    nppSim [(1, 0, 5, 2), (2, 0, 3, 1), (3, 0, 8, 3)] 10
      = some (⟨[⟨1, 0, 5, 5, 0, 5, 2⟩], 1⟩, ⟨[], -1⟩) := by decide

/-- Claim C2: the output queue should contain exactly the input process set.
On the two-process input `(1,0,1,0) (2,0,1,0)` (both arrival 0) the imported
set has pids 1 and 2, yet the NPP output holds only process 1: process 2 is
omitted, refuting the invariant. -/
theorem npp_output_omits_tied_process :
    (importList [(1, 0, 1, 0), (2, 0, 1, 0)]).elems.map Process.pid = [1, 2] ∧
    nppSim [(1, 0, 1, 0), (2, 0, 1, 0)] 10
      = some (⟨[⟨1, 0, 1, 1, 0, 1, 0⟩], 1⟩, ⟨[], -1⟩) ∧
    (⟨[⟨1, 0, 1, 1, 0, 1, 0⟩], 1⟩ : CList).elems.map Process.pid = [1] :=
  ⟨by decide, by decide, by decide⟩

/-- Claim C3: the claimed idle-advance on `(1,0,2,0) (2,5,2,0)` with quantum 4
does not happen.  The imported set has pids 1 and 2, but after process 1
completes at tick 2 the RR loop pops the empty ReadyQueue, gets NULL and
terminates: process 2 (arrival 5) is never admitted, never runs, and is
missing from the output. -/
theorem rr_idle_gap_drops_pending_process :
    (importList [(1, 0, 2, 0), (2, 5, 2, 0)]).elems.map Process.pid = [1, 2] ∧
    rrSim [(1, 0, 2, 0), (2, 5, 2, 0)] 4 10
      = some (⟨[⟨1, 0, 2, 2, 0, 0, 0⟩], 1⟩, ⟨[], -1⟩) :=
  ⟨by decide, by decide⟩

/-- Claim C4: RR with quantum `<= 0` should be rejected before simulation.
The argument handling only rejects an absent quantum; a supplied quantum 0 is
accepted as-is, and the simulation then never terminates (the slice loop runs
zero iterations, `leftover` never reaches 0, and the loop state repeats), so
no error is surfaced and no run completes for any amount of fuel. -/
theorem rr_quantum_zero_not_rejected :
    rrQuantumConfig (some 0) = some 0 ∧
    ∀ fuel : Nat, rrSim [(1, 0, 1, 0)] 0 fuel = none := by
  refine ⟨rfl, fun fuel => ?_⟩
  show rrLoop fuel 0 0 (some (mkProcess 1 0 1 0)) ⟨[], 0⟩ ⟨[], 0⟩ ⟨[], 0⟩ = none
  exact rrLoop_quantum_zero fuel

/-- Claim C5: every process in the output queue of a terminating NPP or RR
run satisfies `finish = arrival + burst + waiting` (both schedulers set
`waiting := CLOCK - arrival - burst` and `finish := CLOCK` at completion). -/
theorem sched_finish_identity (inputN inputR : List (Int × Int × Int × Int))
    (q : Int) (fuelN fuelR : Nat) (resN resR : CList × CList)
    (hN : nppSim inputN fuelN = some resN)
    (hR : rrSim inputR q fuelR = some resR) :
    (∀ pr ∈ resN.1.elems, pr.finish = pr.arrival + pr.burst + pr.waiting) ∧
    (∀ pr ∈ resR.1.elems, pr.finish = pr.arrival + pr.burst + pr.waiting) := by
  constructor
  · exact nppLoop_ident _ _ _ _ _ _ _ hN (by simp [emptyQueue])
  · exact rrLoop_ident _ _ _ _ _ _ _ _ hR (by simp [emptyQueue])

theorem sched_finish_identity_witness :
    nppSim [(1, 0, 5, 2), (2, 0, 3, 1), (3, 0, 8, 3)] 10
        = some (⟨[⟨1, 0, 5, 5, 0, 5, 2⟩], 1⟩, ⟨[], -1⟩) ∧
    rrSim [(1, 0, 2, 0), (2, 5, 2, 0)] 4 10
        = some (⟨[⟨1, 0, 2, 2, 0, 0, 0⟩], 1⟩, ⟨[], -1⟩) ∧
    (⟨1, 0, 5, 5, 0, 5, 2⟩ : Process).finish
        = (⟨1, 0, 5, 5, 0, 5, 2⟩ : Process).arrival
          + (⟨1, 0, 5, 5, 0, 5, 2⟩ : Process).burst
          + (⟨1, 0, 5, 5, 0, 5, 2⟩ : Process).waiting ∧
    (⟨1, 0, 2, 2, 0, 0, 0⟩ : Process).finish
        = (⟨1, 0, 2, 2, 0, 0, 0⟩ : Process).arrival
          + (⟨1, 0, 2, 2, 0, 0, 0⟩ : Process).burst
          + (⟨1, 0, 2, 2, 0, 0, 0⟩ : Process).waiting := by
  have hN : nppSim [(1, 0, 5, 2), (2, 0, 3, 1), (3, 0, 8, 3)] 10
      = some (⟨[⟨1, 0, 5, 5, 0, 5, 2⟩], 1⟩, ⟨[], -1⟩) := by decide
  have hR : rrSim [(1, 0, 2, 0), (2, 5, 2, 0)] 4 10
      = some (⟨[⟨1, 0, 2, 2, 0, 0, 0⟩], 1⟩, ⟨[], -1⟩) := by decide
  have hmain := sched_finish_identity _ _ _ _ _ _ _ hN hR
  exact ⟨hN, hR, hmain.1 _ (by decide), hmain.2 _ (by decide)⟩

/-- Claim C6: on every non-empty queue whose `count` field equals its number
of records (the invariant at every real call site, as in C7),
`insSortPriority` produces a permutation of the previous contents, in
ascending order of `priority`, and stably: for every priority value the
records carrying it keep their previous relative order (their filtered
subsequence is unchanged).  `count` and all other state are untouched.  A
singleton queue takes the `count == 1` early return and is already sorted;
with `count != 1` the non-emptiness hypothesis (together with the count
invariant) puts at least two records in the chain, which is exactly where the
C do-while is well defined. -/
theorem insSortPriority_stable_sort (q : CList)
    (hc : q.count = (q.elems.length : Int)) (h : q.elems ≠ []) :
    List.Perm (sortQueue q).elems q.elems ∧
    (sortQueue q).elems.Pairwise (fun a b => a.priority ≤ b.priority) ∧
    (∀ v : Int, (sortQueue q).elems.filter (fun r => r.priority == v)
        = q.elems.filter (fun r => r.priority == v)) ∧
    (sortQueue q).count = q.count := by
  have hne : q.elems.length ≠ 0 := by simpa using h
  by_cases h1 : q.count = 1
  · have hlen : q.elems.length = 1 := by omega
    obtain ⟨x, hx⟩ := List.length_eq_one.mp hlen
    rw [sortQueue, if_pos h1, hx]
    exact ⟨List.Perm.refl _, by simp, fun v => rfl, rfl⟩
  · rw [sortQueue, if_neg h1]
    refine ⟨?_, ?_, ?_, rfl⟩
    · simpa [insSortPriority] using insSortList_perm q.elems []
    · exact insSortList_sorted q.elems [] (by simp)
    · intro v
      simpa [insSortPriority] using insSortList_filter v q.elems [] (by simp)

theorem insSortPriority_stable_sort_witness :
    ((⟨[mkProcess 1 0 1 3, mkProcess 2 0 1 1], 2⟩ : CList).count
        = ((⟨[mkProcess 1 0 1 3, mkProcess 2 0 1 1], 2⟩ : CList).elems.length : Int)) ∧
    ((⟨[mkProcess 1 0 1 3, mkProcess 2 0 1 1], 2⟩ : CList).elems ≠ []) ∧
    (List.Perm (sortQueue ⟨[mkProcess 1 0 1 3, mkProcess 2 0 1 1], 2⟩).elems
        (⟨[mkProcess 1 0 1 3, mkProcess 2 0 1 1], 2⟩ : CList).elems ∧
      (sortQueue ⟨[mkProcess 1 0 1 3, mkProcess 2 0 1 1], 2⟩).elems.Pairwise
        (fun a b => a.priority ≤ b.priority) ∧
      (∀ v : Int, (sortQueue ⟨[mkProcess 1 0 1 3, mkProcess 2 0 1 1], 2⟩).elems.filter
          (fun r => r.priority == v)
        = (⟨[mkProcess 1 0 1 3, mkProcess 2 0 1 1], 2⟩ : CList).elems.filter
          (fun r => r.priority == v)) ∧
      (sortQueue ⟨[mkProcess 1 0 1 3, mkProcess 2 0 1 1], 2⟩).count
        = (⟨[mkProcess 1 0 1 3, mkProcess 2 0 1 1], 2⟩ : CList).count) :=
  ⟨by decide, by decide, insSortPriority_stable_sort _ (by decide) (by decide)⟩

/-- Claim C7: one `admit` call, under the callers' invariant that the pool's
`count` equals its number of records, examines each pending record exactly
once: records with `arrival = clock` move to the ReadyQueue tail in pool
order, all others stay in the pool in their previous relative order, and the
two counts change by exactly the number of admitted records. -/
theorem arrivalChecker_partition (r p : CList) (clock : Int)
    (h : p.count = (p.elems.length : Int)) :
    (arrivalChecker r p clock).1.elems
        = r.elems ++ p.elems.filter (fun x => x.arrival == clock) ∧
    (arrivalChecker r p clock).2.elems
        = p.elems.filter (fun x => !(x.arrival == clock)) ∧
    (arrivalChecker r p clock).1.count
        = r.count + ((p.elems.filter (fun x => x.arrival == clock)).length : Int) ∧
    (arrivalChecker r p clock).2.count
        = p.count - ((p.elems.filter (fun x => x.arrival == clock)).length : Int) :=
  arrivalChecker_spec r p clock h

theorem arrivalChecker_partition_witness :
    ((⟨[mkProcess 2 1 1 0, mkProcess 3 2 1 0], 2⟩ : CList).count
        = ((⟨[mkProcess 2 1 1 0, mkProcess 3 2 1 0], 2⟩ : CList).elems.length : Int)) ∧
    ((arrivalChecker ⟨[], 0⟩ ⟨[mkProcess 2 1 1 0, mkProcess 3 2 1 0], 2⟩ 1).1.elems
        = (⟨[], 0⟩ : CList).elems
          ++ (⟨[mkProcess 2 1 1 0, mkProcess 3 2 1 0], 2⟩ : CList).elems.filter
            (fun x => x.arrival == 1) ∧
      (arrivalChecker ⟨[], 0⟩ ⟨[mkProcess 2 1 1 0, mkProcess 3 2 1 0], 2⟩ 1).2.elems
        = (⟨[mkProcess 2 1 1 0, mkProcess 3 2 1 0], 2⟩ : CList).elems.filter
            (fun x => !(x.arrival == 1)) ∧
      (arrivalChecker ⟨[], 0⟩ ⟨[mkProcess 2 1 1 0, mkProcess 3 2 1 0], 2⟩ 1).1.count
        = (⟨[], 0⟩ : CList).count
          + (((⟨[mkProcess 2 1 1 0, mkProcess 3 2 1 0], 2⟩ : CList).elems.filter
            (fun x => x.arrival == 1)).length : Int) ∧
      (arrivalChecker ⟨[], 0⟩ ⟨[mkProcess 2 1 1 0, mkProcess 3 2 1 0], 2⟩ 1).2.count
        = (⟨[mkProcess 2 1 1 0, mkProcess 3 2 1 0], 2⟩ : CList).count
          - (((⟨[mkProcess 2 1 1 0, mkProcess 3 2 1 0], 2⟩ : CList).elems.filter
            (fun x => x.arrival == 1)).length : Int)) :=
  ⟨by decide, arrivalChecker_partition _ _ _ (by decide)⟩

/-- Claim C8: in the RR loop, when the slice ends with `leftover > 0` the
running process is enqueued at the ReadyQueue tail before `admit` runs for
the current clock, so every process arriving exactly at the preemption tick
lands immediately after the just-preempted process; the loop then pops the
head of exactly that queue and the output queue is unchanged. -/
theorem rr_preempt_enqueue_order (q clock clock2 : Int) (c c2 : Process)
    (ready pool r2 p2 out : CList)
    (hs : rrSlice q.toNat clock c ready pool = (clock2, c2, r2, p2))
    (h1 : ¬ c2.leftover = 0)
    (h2 : p2.count = (p2.elems.length : Int)) :
    (arrivalChecker (enqueue r2 c2) p2 clock2).1.elems
        = r2.elems ++ c2 :: p2.elems.filter (fun x => x.arrival == clock2) ∧
    rrStep q clock c ready pool out
      = (clock2,
         (arrivalChecker (enqueue r2 c2) p2 clock2).1.elems.head?,
         ⟨(arrivalChecker (enqueue r2 c2) p2 clock2).1.elems.tail,
          (arrivalChecker (enqueue r2 c2) p2 clock2).1.count - 1⟩,
         (arrivalChecker (enqueue r2 c2) p2 clock2).2,
         out) := by
  constructor
  · rw [(arrivalChecker_spec (enqueue r2 c2) p2 clock2 h2).1]
    simp [enqueue]
  · simp only [rrStep, hs]
    rw [if_neg h1, dequeue_eq]

theorem rr_preempt_enqueue_order_witness :
    (rrSlice (2 : Int).toNat 0 (mkProcess 1 0 3 0) ⟨[], 0⟩ ⟨[mkProcess 2 2 1 0], 1⟩
        = (2, ⟨1, 0, 3, 0, 0, 1, 0⟩, ⟨[], 0⟩, ⟨[⟨2, 2, 1, 0, 0, 1, 0⟩], 1⟩)) ∧
    (¬ (⟨1, 0, 3, 0, 0, 1, 0⟩ : Process).leftover = 0) ∧
    ((⟨[⟨2, 2, 1, 0, 0, 1, 0⟩], 1⟩ : CList).count
        = ((⟨[⟨2, 2, 1, 0, 0, 1, 0⟩], 1⟩ : CList).elems.length : Int)) ∧
    ((arrivalChecker (enqueue ⟨[], 0⟩ ⟨1, 0, 3, 0, 0, 1, 0⟩)
          ⟨[⟨2, 2, 1, 0, 0, 1, 0⟩], 1⟩ 2).1.elems
        = (⟨[], 0⟩ : CList).elems ++ (⟨1, 0, 3, 0, 0, 1, 0⟩ : Process)
          :: (⟨[⟨2, 2, 1, 0, 0, 1, 0⟩], 1⟩ : CList).elems.filter (fun x => x.arrival == 2) ∧
      rrStep 2 0 (mkProcess 1 0 3 0) ⟨[], 0⟩ ⟨[mkProcess 2 2 1 0], 1⟩ ⟨[], 0⟩
        = (2,
           (arrivalChecker (enqueue ⟨[], 0⟩ ⟨1, 0, 3, 0, 0, 1, 0⟩)
              ⟨[⟨2, 2, 1, 0, 0, 1, 0⟩], 1⟩ 2).1.elems.head?,
           ⟨(arrivalChecker (enqueue ⟨[], 0⟩ ⟨1, 0, 3, 0, 0, 1, 0⟩)
              ⟨[⟨2, 2, 1, 0, 0, 1, 0⟩], 1⟩ 2).1.elems.tail,
            (arrivalChecker (enqueue ⟨[], 0⟩ ⟨1, 0, 3, 0, 0, 1, 0⟩)
              ⟨[⟨2, 2, 1, 0, 0, 1, 0⟩], 1⟩ 2).1.count - 1⟩,
           (arrivalChecker (enqueue ⟨[], 0⟩ ⟨1, 0, 3, 0, 0, 1, 0⟩)
              ⟨[⟨2, 2, 1, 0, 0, 1, 0⟩], 1⟩ 2).2,
           ⟨[], 0⟩)) :=
  ⟨by decide, by decide, by decide,
    rr_preempt_enqueue_order 2 0 2 (mkProcess 1 0 3 0) ⟨1, 0, 3, 0, 0, 1, 0⟩
      ⟨[], 0⟩ ⟨[mkProcess 2 2 1 0], 1⟩ ⟨[], 0⟩ ⟨[⟨2, 2, 1, 0, 0, 1, 0⟩], 1⟩ ⟨[], 0⟩
      (by decide) (by decide) (by decide)⟩

/-- Claim C9: in NPP the clock advances by one per burst tick, and a selected
process with burst `b` (run from clock `t`) is the very next record appended
to the output, completed with `finish = t + b`; no other process reaches the
output during that interval, i.e. the run is contiguous and unpreempted. -/
theorem npp_burst_contiguous (fuel : Nat) (clock : Int) (c : Process)
    (ready pool out : CList) (res : CList × CList)
    (hb : 0 ≤ c.burst)
    (h : nppLoop (fuel + 1) clock (some c) ready pool out = some res) :
    (∀ (n : Nat) (ck : Int) (r p : CList), (runBurst n ck r p).1 = ck + n) ∧
    ∃ t, res.1.elems = out.elems ++ ({ c with
        waiting := clock + c.burst - c.arrival - c.burst,
        finish := clock + c.burst } :: t) := by
  refine ⟨runBurst_clock, ?_⟩
  rw [nppLoop] at h
  obtain ⟨t, ht⟩ := nppLoop_out_extends _ _ _ _ _ _ _ h
  rw [nppStep_out] at ht
  have hck : (runBurst c.burst.toNat clock ready pool).1 = clock + c.burst := by
    rw [runBurst_clock, Int.toNat_of_nonneg hb]
  rw [hck] at ht
  refine ⟨t, ?_⟩
  rw [ht]
  simp [enqueue]

theorem npp_burst_contiguous_witness :
    (0 ≤ (mkProcess 1 0 2 5).burst) ∧
    (nppLoop (1 + 1) 0 (some (mkProcess 1 0 2 5)) ⟨[], 0⟩ ⟨[], 0⟩ ⟨[], 0⟩
        = some (⟨[⟨1, 0, 2, 2, 0, 2, 5⟩], 1⟩, ⟨[], -1⟩)) ∧
    ((∀ (n : Nat) (ck : Int) (r p : CList), (runBurst n ck r p).1 = ck + n) ∧
      ∃ t, ((⟨[⟨1, 0, 2, 2, 0, 2, 5⟩], 1⟩, (⟨[], -1⟩ : CList)) : CList × CList).1.elems
        = (⟨[], 0⟩ : CList).elems ++ ({ mkProcess 1 0 2 5 with
            waiting := 0 + (mkProcess 1 0 2 5).burst - (mkProcess 1 0 2 5).arrival
              - (mkProcess 1 0 2 5).burst,
            finish := 0 + (mkProcess 1 0 2 5).burst } :: t)) :=
  ⟨by decide, by decide,
    npp_burst_contiguous 1 0 (mkProcess 1 0 2 5) ⟨[], 0⟩ ⟨[], 0⟩ ⟨[], 0⟩
      (⟨[⟨1, 0, 2, 2, 0, 2, 5⟩], 1⟩, ⟨[], -1⟩) (by decide) (by decide)⟩

/-- Claim C10: `dequeue` on an empty queue returns no record and still
decrements `count` (0 becomes -1) instead of signalling an error, and both
schedulers end their main loop through exactly this path: after a terminating
NPP and RR run the final ReadyQueue has no records but `count = -1`. -/
theorem dequeue_empty_null_return :
    dequeue ⟨[], 0⟩ = (none, ⟨[], -1⟩) ∧
    (nppSim [(1, 0, 5, 2), (2, 0, 3, 1), (3, 0, 8, 3)] 10).map Prod.snd
      = some ⟨[], -1⟩ ∧
    (rrSim [(1, 0, 2, 0), (2, 5, 2, 0)] 4 10).map Prod.snd = some ⟨[], -1⟩ :=
  ⟨rfl, by decide, by decide⟩
